import Mathlib

/-!
Verification of the replicate_trial repository against its specification.

This file gives a shallow embedding of the rate limiter
(src/replicate_trial/rate_limiter.py), the chunk splitter and the
response-repair / retry / merge logic of `process_text`
(src/replicate_trial/replicate_processor.py), and proves or refutes the
frozen claims about them.

Modelling conventions:
 - Python floats (token counts, rates, durations) are modelled as `ℚ`.
 - Python text is modelled as `List Char`; slicing `text[a:b]` becomes
   `(text.drop a).take (b - a)`.
 - Wall-clock reads are replaced by explicit elapsed-time arguments
   (`dt` = `now - last_update` at a refill, `dtCheck` = `time.time() - start_time`
   at the timeout check); a monotone clock makes these non-negative.
 - Raising Python code returns `Except`; the thread lock is dropped
   (all modelled executions are single-threaded call sequences).
-/

/-! ## Rate limiter (src/replicate_trial/rate_limiter.py, class RateLimiter) -/

/-- State of `RateLimiter`: fields `rate`, `max_tokens`, `tokens`
(lines 35-38).  The `last_update` timestamp is replaced by the explicit
elapsed-time argument `dt` fed to each call, and the `lock` is dropped. -/
structure RateLimiter where
  rate : ℚ
  max_tokens : ℚ
  tokens : ℚ
deriving DecidableEq

/-- The only error `RateLimiter.acquire` can raise: the `ValueError` of
line 70 (requested tokens exceed maximum). -/
inductive RLErr where
  | valueError
deriving DecidableEq

/-- `RateLimiter.__init__` (lines 35-38): `tokens` starts at `max_burst`. -/
def rlInit (rate max_burst : ℚ) : RateLimiter :=
  { rate := rate, max_tokens := max_burst, tokens := max_burst }

/-- `RateLimiter._add_tokens` (lines 41-53): add `time_passed * rate`
tokens, capped at `max_tokens`.  `dt` stands for `now - self.last_update`. -/
def addTokens (s : RateLimiter) (dt : ℚ) : RateLimiter :=
  { s with tokens := min s.max_tokens (s.tokens + dt * s.rate) }

/-- `RateLimiter.acquire` (lines 55-85).  `dt` is the elapsed time used by
the internal `_add_tokens` refill; `dtCheck` is the value of
`time.time() - start_time` at the line-82 timeout comparison.  Note that
lines 81-85 return `False` on BOTH sides of the timeout comparison, so the
comparison is kept here only to mirror the source. -/
def RateLimiter.acquire (s : RateLimiter) (tokens : ℕ) (dt : ℚ)
    (timeout : Option ℚ) (dtCheck : ℚ) : Except RLErr Bool × RateLimiter :=
  if (tokens : ℚ) > s.max_tokens then
    (.error .valueError, s)
  else
    let s' := addTokens s dt
    if s'.tokens ≥ (tokens : ℚ) then
      (.ok true, { s' with tokens := s'.tokens - (tokens : ℚ) })
    else
      match timeout with
      | some t => if dtCheck ≥ t then (.ok false, s') else (.ok false, s')
      | none => (.ok false, s')

/-- `RateLimiter.release` (lines 87-96): refill, then add one token back,
capped at `max_tokens`. -/
def RateLimiter.release (s : RateLimiter) (dt : ℚ) : RateLimiter :=
  let s' := addTokens s dt
  { s' with tokens := min s'.max_tokens (s'.tokens + 1) }

/-- One call made against a `RateLimiter`, together with the wall-clock
elapsed times observed inside the call. -/
inductive RLEvent where
  | acquire (tokens : ℕ) (dt : ℚ) (timeout : Option ℚ) (dtCheck : ℚ)
  | release (dt : ℚ)

/-- The refill elapsed time of an event. -/
def RLEvent.dt : RLEvent → ℚ
  | .acquire _ dt _ _ => dt
  | .release dt => dt

/-- Whether an event is a `release` call. -/
def RLEvent.isRelease : RLEvent → Bool
  | .acquire _ _ _ _ => false
  | .release _ => true

/-- The state transition of one call (a raising `acquire` leaves the state
unchanged: the line-69 check precedes every mutation). -/
def rlStep (s : RateLimiter) (e : RLEvent) : RateLimiter :=
  match e with
  | .acquire n dt t c => (s.acquire n dt t c).2
  | .release dt => s.release dt

/-- Whether the event is an `acquire` that returned `True`. -/
def acquireSucceeded (s : RateLimiter) (e : RLEvent) : Prop :=
  match e with
  | .acquire n dt t c => (s.acquire n dt t c).1 = .ok true
  | .release _ => False

/-- The well-formedness facts preserved by every call. -/
def rlInv (s : RateLimiter) : Prop :=
  0 ≤ s.rate ∧ 0 ≤ s.tokens ∧ s.tokens ≤ s.max_tokens

lemma addTokens_rate (s : RateLimiter) (dt : ℚ) : (addTokens s dt).rate = s.rate := rfl

lemma addTokens_max (s : RateLimiter) (dt : ℚ) :
    (addTokens s dt).max_tokens = s.max_tokens := rfl

lemma addTokens_tokens_le_max (s : RateLimiter) (dt : ℚ) :
    (addTokens s dt).tokens ≤ s.max_tokens :=
  min_le_left _ _

lemma addTokens_tokens_nonneg (s : RateLimiter) (dt : ℚ)
    (hs : rlInv s) (hdt : 0 ≤ dt) : 0 ≤ (addTokens s dt).tokens := by
  obtain ⟨hr, h0, hm⟩ := hs
  have hx : 0 ≤ s.tokens + dt * s.rate := by positivity
  exact le_min (h0.trans hm) hx

lemma addTokens_tokens_ge (s : RateLimiter) (dt : ℚ)
    (hs : rlInv s) (hdt : 0 ≤ dt) : s.tokens ≤ (addTokens s dt).tokens := by
  obtain ⟨hr, h0, hm⟩ := hs
  have : s.tokens ≤ s.tokens + dt * s.rate := by nlinarith
  exact le_min hm this

lemma addTokens_tokens_le_self (s : RateLimiter) (dt : ℚ)
    (hs : rlInv s) (hdt : dt ≤ 0) : (addTokens s dt).tokens ≤ s.tokens := by
  obtain ⟨hr, h0, hm⟩ := hs
  have : s.tokens + dt * s.rate ≤ s.tokens := by nlinarith
  exact le_trans (min_le_right _ _) this

lemma rlStep_inv (s : RateLimiter) (e : RLEvent)
    (hs : rlInv s) (hdt : 0 ≤ e.dt) : rlInv (rlStep s e) := by
  obtain ⟨hr, h0, hm⟩ := hs
  cases e with
  | acquire n dt t c =>
    simp only [rlStep, RateLimiter.acquire]
    split
    · exact ⟨hr, h0, hm⟩
    · split
      · rename_i hge
        refine ⟨hr, ?_, ?_⟩
        · simpa using hge
        · calc (addTokens s dt).tokens - (n : ℚ) ≤ (addTokens s dt).tokens := by
                have : (0:ℚ) ≤ (n : ℚ) := by positivity
                linarith
            _ ≤ s.max_tokens := addTokens_tokens_le_max s dt
      · have hdt' : 0 ≤ dt := hdt
        have h1 := addTokens_tokens_nonneg s dt ⟨hr, h0, hm⟩ hdt'
        have h2 := addTokens_tokens_le_max s dt
        rcases t with _ | t
        · exact ⟨hr, h1, h2⟩
        · dsimp only
          split <;> exact ⟨hr, h1, h2⟩
  | release dt =>
    have hdt' : 0 ≤ dt := hdt
    have h1 := addTokens_tokens_nonneg s dt ⟨hr, h0, hm⟩ hdt'
    refine ⟨hr, ?_, ?_⟩
    · exact le_min (le_trans h0 hm) (by linarith)
    · exact min_le_left _ _

lemma rlStep_decrease (s : RateLimiter) (e : RLEvent)
    (hs : rlInv s) (hdt : 0 ≤ e.dt)
    (hlt : (rlStep s e).tokens < s.tokens) : acquireSucceeded s e := by
  obtain ⟨hr, h0, hm⟩ := hs
  cases e with
  | acquire n dt t c =>
    simp only [rlStep, RateLimiter.acquire] at hlt ⊢
    split at hlt
    · exact absurd hlt (lt_irrefl _)
    · rename_i hraise
      split at hlt
      · rename_i hge
        simp only [acquireSucceeded, RateLimiter.acquire, if_neg hraise, if_pos hge]
      · exfalso
        have hge' := addTokens_tokens_ge s dt ⟨hr, h0, hm⟩ hdt
        rcases t with _ | t
        · simp only at hlt; linarith
        · dsimp only at hlt
          split at hlt <;> simp only at hlt <;> linarith
  | release dt =>
    exfalso
    have hdt' : 0 ≤ dt := hdt
    have hge' := addTokens_tokens_ge s dt ⟨hr, h0, hm⟩ hdt'
    have h2 := addTokens_tokens_le_max s dt
    simp only [rlStep, RateLimiter.release] at hlt
    have : min s.max_tokens ((addTokens s dt).tokens + 1) ≥ (addTokens s dt).tokens := by
      refine le_min ?_ (by linarith)
      simpa [addTokens_max] using h2
    simp only [addTokens_max] at this hlt
    linarith

lemma rlStep_increase (s : RateLimiter) (e : RLEvent)
    (hs : rlInv s) (hlt : s.tokens < (rlStep s e).tokens) :
    e.isRelease = true ∨ 0 < e.dt := by
  obtain ⟨hr, h0, hm⟩ := hs
  cases e with
  | acquire n dt t c =>
    by_contra hcon
    push_neg at hcon
    have hdt : dt ≤ 0 := hcon.2
    have hle := addTokens_tokens_le_self s dt ⟨hr, h0, hm⟩ hdt
    simp only [rlStep, RateLimiter.acquire] at hlt
    split at hlt
    · exact absurd hlt (lt_irrefl _)
    · split at hlt
      · simp only at hlt
        have : (0:ℚ) ≤ (n : ℚ) := by positivity
        linarith
      · rcases t with _ | t
        · simp only at hlt; linarith
        · dsimp only at hlt
          split at hlt <;> simp only at hlt <;> linarith
  | release dt => exact Or.inl rfl

lemma scanl_all_inv {σ ε : Type} (f : σ → ε → σ) (P : σ → Prop) (Q : ε → Prop)
    (hstep : ∀ s e, P s → Q e → P (f s e)) :
    ∀ (l : List ε) (s : σ), P s → (∀ e ∈ l, Q e) → ∀ x ∈ l.scanl f s, P x := by
  intro l
  induction l with
  | nil => intro s hP _ x hx; simp only [List.scanl_nil, List.mem_singleton] at hx; rwa [hx]
  | cons e l ih =>
    intro s hP hQ x hx
    rw [List.scanl_cons] at hx
    rcases List.mem_cons.mp hx with h | h
    · rwa [h]
    · exact ih (f s e) (hstep s e hP (hQ e (List.mem_cons_self e l)))
        (fun e' he' => hQ e' (List.mem_cons_of_mem _ he')) x h

/-- C2: for every `RateLimiter` built with capacity ≥ 1 and rate > 0, along
every finite sequence of `acquire`/`release` calls with non-negative elapsed
times, `0 ≤ tokens ≤ max_tokens` holds after every call; moreover a single
call can decrease `tokens` only when it is a successful `acquire`, and can
increase `tokens` only when it is a `release` or sees strictly positive
elapsed time (time-proportional refill), always capped at `max_tokens`. -/
theorem rateLimiter_token_bounds (rate maxB : ℚ) (events : List RLEvent)
    (hmax : 1 ≤ maxB) (hrate : 0 < rate)
    (hdt : ∀ e ∈ events, 0 ≤ e.dt) :
    (∀ s ∈ events.scanl rlStep (rlInit rate maxB),
        0 ≤ s.tokens ∧ s.tokens ≤ s.max_tokens) ∧
    (∀ (s : RateLimiter) (e : RLEvent), rlInv s → 0 ≤ e.dt →
        ((rlStep s e).tokens < s.tokens → acquireSucceeded s e) ∧
        (s.tokens < (rlStep s e).tokens → e.isRelease = true ∨ 0 < e.dt)) := by
  constructor
  · intro s hs
    have hinit : rlInv (rlInit rate maxB) := by
      refine ⟨le_of_lt hrate, ?_, le_refl _⟩
      simp only [rlInit]
      linarith
    have := scanl_all_inv rlStep rlInv (fun e => 0 ≤ e.dt) rlStep_inv events
      (rlInit rate maxB) hinit hdt s hs
    exact ⟨this.2.1, this.2.2⟩
  · intro s e hs hdte
    exact ⟨rlStep_decrease s e hs hdte, fun h => rlStep_increase s e hs h⟩

/-- Witness for C2 at `rate = 1`, `capacity = 1` with one `acquire(1)` call. -/
theorem rateLimiter_token_bounds_witness :
    (1:ℚ) ≤ 1 ∧ (0:ℚ) < 1 ∧
    ((∀ s ∈ [RLEvent.acquire 1 0 none 0].scanl rlStep (rlInit 1 1),
        0 ≤ s.tokens ∧ s.tokens ≤ s.max_tokens) ∧
     (∀ (s : RateLimiter) (e : RLEvent), rlInv s → 0 ≤ e.dt →
        ((rlStep s e).tokens < s.tokens → acquireSucceeded s e) ∧
        (s.tokens < (rlStep s e).tokens → e.isRelease = true ∨ 0 < e.dt))) :=
  ⟨le_refl 1, by norm_num,
    rateLimiter_token_bounds 1 1 [RLEvent.acquire 1 0 none 0] (le_refl 1) (by norm_num)
      (by intro e he; simp only [List.mem_singleton] at he; subst he; simp [RLEvent.dt])⟩

/-- C1 is false as stated: `acquire` with a `timeout` argument and
insufficient tokens returns `False` immediately even when the elapsed time
(here `dtCheck = 0`) is strictly below the timeout window (here `10`
seconds): lines 81-85 return `False` on both sides of the comparison.
Concretely, a limiter with `rate = 1`, `max_tokens = 1`, `tokens = 0`
refuses `acquire(1, timeout=10)` although `0 < 10`. -/
theorem acquire_false_before_timeout_counterexample :
    ((RateLimiter.mk 1 1 0).acquire 1 0 (some 10) 0).1 = .ok false ∧ (0:ℚ) < 10 := by
  constructor
  · norm_num [RateLimiter.acquire, addTokens]
  · norm_num

/-- C1 (amended): with fewer available tokens than requested (after the
single refill check), `acquire` with no `timeout` returns `False`
immediately, and `acquire` with a `timeout` argument likewise performs a
single refill check and returns `False` immediately — whether or not the
timeout window has elapsed; it never sleeps or polls internally (the state
after the call is exactly the refilled state). -/
theorem acquire_insufficient_false_immediately (s : RateLimiter) (n : ℕ)
    (dt : ℚ) (timeout : Option ℚ) (dtCheck : ℚ)
    (hmax : (n : ℚ) ≤ s.max_tokens)
    (hin : (addTokens s dt).tokens < (n : ℚ)) :
    s.acquire n dt timeout dtCheck = (.ok false, addTokens s dt) := by
  simp only [RateLimiter.acquire, if_neg (not_lt.mpr hmax), if_neg (not_le.mpr hin)]
  rcases timeout with _ | t
  · rfl
  · dsimp only
    split <;> rfl

/-- Witness for C1 (amended): the depleted limiter `⟨1, 1, 0⟩` with a
10-second timeout. -/
theorem acquire_insufficient_false_immediately_witness :
    ((1:ℕ) : ℚ) ≤ (RateLimiter.mk 1 1 0).max_tokens ∧
    (addTokens (RateLimiter.mk 1 1 0) 0).tokens < ((1:ℕ) : ℚ) ∧
    (RateLimiter.mk 1 1 0).acquire 1 0 (some 10) 0 =
      (.ok false, addTokens (RateLimiter.mk 1 1 0) 0) :=
  ⟨by norm_num, by norm_num [addTokens],
    acquire_insufficient_false_immediately (RateLimiter.mk 1 1 0) 1 0 (some 10) 0
      (by norm_num) (by norm_num [addTokens])⟩

/-- C8: requesting strictly more tokens than `max_tokens` makes `acquire`
raise (`ValueError`, line 69-70) immediately, for every state, elapsed
time and timeout argument, leaving the limiter untouched. -/
theorem acquire_over_capacity_raises (s : RateLimiter) (n : ℕ)
    (dt : ℚ) (timeout : Option ℚ) (dtCheck : ℚ)
    (h : s.max_tokens < (n : ℚ)) :
    s.acquire n dt timeout dtCheck = (.error .valueError, s) := by
  simp only [RateLimiter.acquire, if_pos h]

/-- Witness for C8: asking 6 tokens from a bucket of capacity 5. -/
theorem acquire_over_capacity_raises_witness :
    (RateLimiter.mk 1 5 5).max_tokens < ((6:ℕ) : ℚ) ∧
    (RateLimiter.mk 1 5 5).acquire 6 100 (some 100) 100 =
      (.error .valueError, RateLimiter.mk 1 5 5) :=
  ⟨by norm_num,
    acquire_over_capacity_raises (RateLimiter.mk 1 5 5) 6 100 (some 100) 100 (by norm_num)⟩

/-! ## Chunk splitter (`ReplicateProcessor._chunk_text`, replicate_processor.py lines 214-262) -/

/-- Helper embedding Python `str.rfind(sub, start, stop)`: scan candidate
positions from `p` down to `start`, returning the highest position where
`sub` occurs. -/
def rfindDown (s sub : List Char) (start : Nat) : Nat → Option Nat
  | 0 =>
    if 0 < start then none
    else if sub.isPrefixOf s then some 0 else none
  | p + 1 =>
    if p + 1 < start then none
    else if sub.isPrefixOf (s.drop (p + 1)) then some (p + 1)
    else rfindDown s sub start p

/-- Python `s.rfind(sub, start, stop)` for a non-empty `sub`: the largest
`p` with `start ≤ p`, `p + sub.length ≤ min stop s.length` and `sub`
occurring at `p`; `none` when there is no such `p` (Python returns -1). -/
def pyRfind (s sub : List Char) (start stop : Nat) : Option Nat :=
  let stop' := min stop s.length
  if sub.length ≤ stop' then rfindDown s sub start (stop' - sub.length) else none

/-- The break-point search of `_chunk_text` (lines 238-257): try the last
sentence end `". "`, else the last newline, else the last space inside the
window, else cut hard at `pos + maxChars`. -/
def chunkStep (text : List Char) (maxChars pos : Nat) : Nat :=
  let end0 := pos + maxChars
  match pyRfind text ['.', ' '] pos end0 with
  | some p => p + 1
  | none =>
    match pyRfind text ['\n'] pos end0 with
    | some p => p + 1
    | none =>
      match pyRfind text [' '] pos end0 with
      | some p => p + 1
      | none => end0

/-- The `while current_pos < len(text)` loop of `_chunk_text`
(lines 237-260), fuelled; `text.length` units of fuel always suffice
(see `chunk_splitter_progress_and_scenario`). -/
def chunkGoF (text : List Char) (maxChars : Nat) : Nat → Nat → List (List Char)
  | 0, _ => []
  | fuel + 1, pos =>
    if pos < text.length then
      if pos + maxChars ≥ text.length then [text.drop pos]
      else
        let e := chunkStep text maxChars pos
        ((text.drop pos).take (e - pos)) :: chunkGoF text maxChars fuel e
    else []

/-- `ReplicateProcessor._chunk_text` (lines 214-262): 4 characters per
token, short text returned whole, otherwise the splitting loop. -/
def chunk_text (text : List Char) (max_chunk_size : Nat := 1500) : List (List Char) :=
  let chars_per_token := 4
  let max_chars := max_chunk_size * chars_per_token
  if text.length ≤ max_chars then [text]
  else chunkGoF text max_chars text.length 0

lemma rfindDown_ge_start (s sub : List Char) (start : Nat) :
    ∀ p q, rfindDown s sub start p = some q → start ≤ q := by
  intro p
  induction p with
  | zero =>
    intro q h
    simp only [rfindDown] at h
    split at h
    · exact absurd h (by simp)
    · split at h
      · cases h; omega
      · exact absurd h (by simp)
  | succ p ih =>
    intro q h
    simp only [rfindDown] at h
    split at h
    · exact absurd h (by simp)
    · split at h
      · cases h; omega
      · exact ih q h

lemma pyRfind_ge_start (s sub : List Char) (start stop : Nat) (q : Nat)
    (h : pyRfind s sub start stop = some q) : start ≤ q := by
  simp only [pyRfind] at h
  split at h
  · exact rfindDown_ge_start s sub start _ q h
  · exact absurd h (by simp)

lemma chunkStep_gt (text : List Char) (maxChars pos : Nat) (h : 1 ≤ maxChars) :
    pos < chunkStep text maxChars pos := by
  simp only [chunkStep]
  split
  · rename_i p hp
    have := pyRfind_ge_start text ['.', ' '] pos (pos + maxChars) p hp
    omega
  · split
    · rename_i p hp
      have := pyRfind_ge_start text ['\n'] pos (pos + maxChars) p hp
      omega
    · split
      · rename_i p hp
        have := pyRfind_ge_start text [' '] pos (pos + maxChars) p hp
        omega
      · omega

lemma chunkGoF_flatten (text : List Char) (maxChars : Nat) (h : 1 ≤ maxChars) :
    ∀ fuel pos, text.length - pos ≤ fuel →
      (chunkGoF text maxChars fuel pos).flatten = text.drop pos := by
  intro fuel
  induction fuel with
  | zero =>
    intro pos hf
    have : text.length ≤ pos := by omega
    simp [chunkGoF, List.drop_eq_nil_of_le this]
  | succ fuel ih =>
    intro pos hf
    simp only [chunkGoF]
    split
    · rename_i hlt
      split
      · simp
      · rename_i hend
        have hgt := chunkStep_gt text maxChars pos h
        have hrec : text.length - chunkStep text maxChars pos ≤ fuel := by omega
        rw [List.flatten_cons, ih _ hrec]
        have hdd : text.drop (chunkStep text maxChars pos) =
            (text.drop pos).drop (chunkStep text maxChars pos - pos) := by
          rw [List.drop_drop]
          congr 1
          omega
        rw [hdd, List.take_append_drop]
    · rename_i hge
      have : text.length ≤ pos := by omega
      simp [List.drop_eq_nil_of_le this]

lemma chunkGoF_ne_nil (text : List Char) (maxChars : Nat) (h : 1 ≤ maxChars) :
    ∀ fuel pos, ∀ c ∈ chunkGoF text maxChars fuel pos, c ≠ [] := by
  intro fuel
  induction fuel with
  | zero => intro pos c hc; simp [chunkGoF] at hc
  | succ fuel ih =>
    intro pos c hc
    simp only [chunkGoF] at hc
    split at hc
    · rename_i hlt
      split at hc
      · simp only [List.mem_singleton] at hc
        subst hc
        simp only [ne_eq, List.drop_eq_nil_iff, not_le]
        omega
      · rcases List.mem_cons.mp hc with hc | hc
        · subst hc
          have hgt := chunkStep_gt text maxChars pos h
          have : ((text.drop pos).take (chunkStep text maxChars pos - pos)).length =
              min (chunkStep text maxChars pos - pos) (text.length - pos) := by
            simp [List.length_take]
          intro hnil
          rw [hnil] at this
          simp only [List.length_nil] at this
          omega
        · exact ih _ c hc
    · simp at hc

lemma chunkGoF_stable (text : List Char) (maxChars : Nat) (h : 1 ≤ maxChars) :
    ∀ fuel fuel' pos, text.length - pos ≤ fuel → text.length - pos ≤ fuel' →
      chunkGoF text maxChars fuel pos = chunkGoF text maxChars fuel' pos := by
  have hnil : ∀ f pos, text.length ≤ pos → chunkGoF text maxChars f pos = [] := by
    intro f pos hp
    cases f with
    | zero => rfl
    | succ f => simp [chunkGoF, Nat.not_lt.mpr hp]
  intro fuel
  induction fuel with
  | zero =>
    intro fuel' pos hf hf'
    have hp : text.length ≤ pos := by omega
    rw [hnil _ _ hp, hnil _ _ hp]
  | succ fuel ih =>
    intro fuel' pos hf hf'
    cases fuel' with
    | zero =>
      have hp : text.length ≤ pos := by omega
      rw [hnil _ _ hp, hnil _ _ hp]
    | succ fuel' =>
      simp only [chunkGoF]
      split
      · rename_i hlt
        split
        · rfl
        · have hgt := chunkStep_gt text maxChars pos h
          have h1 : text.length - chunkStep text maxChars pos ≤ fuel := by omega
          have h2 : text.length - chunkStep text maxChars pos ≤ fuel' := by omega
          rw [ih fuel' _ h1 h2]
      · rfl

/-- C5: concatenating the chunks of `_chunk_text` in order reproduces the
input exactly (no character is dropped or inserted), and any text of at
most `max_chunk_size * 4` characters comes back as a single chunk equal to
the input. -/
theorem chunk_text_roundtrip (text : List Char) (size : Nat) (h : 1 ≤ size) :
    (chunk_text text size).flatten = text ∧
    (text.length ≤ size * 4 → chunk_text text size = [text]) := by
  constructor
  · simp only [chunk_text]
    split
    · simp
    · have h4 : 1 ≤ size * 4 := by omega
      rw [chunkGoF_flatten text (size * 4) h4 text.length 0 (by omega)]
      simp
  · intro hshort
    simp [chunk_text, hshort]

/-- Witness for C5 on the two-character text `"ab"` with the default
chunk size. -/
theorem chunk_text_roundtrip_witness :
    1 ≤ 1500 ∧
    ((chunk_text ['a', 'b'] 1500).flatten = ['a', 'b'] ∧
     ((['a', 'b'] : List Char).length ≤ 1500 * 4 →
        chunk_text ['a', 'b'] 1500 = [['a', 'b']])) :=
  ⟨by norm_num, chunk_text_roundtrip ['a', 'b'] 1500 (by norm_num)⟩

/-- C6 is false as stated on the empty input: `_chunk_text("")` returns
`[""]`, whose single chunk is empty, contradicting "every emitted chunk is
non-empty". -/
theorem chunk_text_empty_counterexample :
    chunk_text [] 1500 = [[]] := rfl

lemma isPrefixOf_replicate_ne (c a : Char) (rest : List Char) (m : Nat)
    (h : c ≠ a) : (c :: rest).isPrefixOf (List.replicate m a) = false := by
  cases m with
  | zero => rfl
  | succ m =>
    have hb : (c == a) = false := beq_eq_false_iff_ne.mpr h
    simp [List.replicate_succ, List.isPrefixOf, hb]

lemma rfindDown_replicate_none (a c : Char) (rest : List Char) (n start : Nat)
    (h : c ≠ a) :
    ∀ p, rfindDown (List.replicate n a) (c :: rest) start p = none := by
  intro p
  induction p with
  | zero =>
    simp only [rfindDown]
    split
    · rfl
    · simp [isPrefixOf_replicate_ne c a rest n h]
  | succ p ih =>
    simp only [rfindDown]
    split
    · rfl
    · rw [List.drop_replicate]
      simp [isPrefixOf_replicate_ne c a rest (n - (p + 1)) h, ih]

lemma pyRfind_replicate_none (a c : Char) (rest : List Char) (n start stop : Nat)
    (h : c ≠ a) :
    pyRfind (List.replicate n a) (c :: rest) start stop = none := by
  simp only [pyRfind]
  split
  · exact rfindDown_replicate_none a c rest n start h _
  · rfl

lemma chunkStep_replicate_a (n maxChars pos : Nat) :
    chunkStep (List.replicate n 'a') maxChars pos = pos + maxChars := by
  simp only [chunkStep]
  rw [pyRfind_replicate_none 'a' '.' [' '] n pos (pos + maxChars) (by decide),
    pyRfind_replicate_none 'a' '\n' [] n pos (pos + maxChars) (by decide),
    pyRfind_replicate_none 'a' ' ' [] n pos (pos + maxChars) (by decide)]

lemma chunkGoF_succ_final (text : List Char) (mc fuel pos : Nat)
    (h1 : pos < text.length) (h2 : text.length ≤ pos + mc) :
    chunkGoF text mc (fuel + 1) pos = [text.drop pos] := by
  simp only [chunkGoF]
  rw [if_pos h1, if_pos h2]

lemma chunkGoF_succ_cons (text : List Char) (mc fuel pos : Nat)
    (h1 : pos < text.length) (h2 : pos + mc < text.length) :
    chunkGoF text mc (fuel + 1) pos =
      ((text.drop pos).take (chunkStep text mc pos - pos)) ::
        chunkGoF text mc fuel (chunkStep text mc pos) := by
  simp only [chunkGoF]
  rw [if_pos h1, if_neg (by omega)]

lemma chunk_text_replicate_6001 :
    chunk_text (List.replicate 6001 'a') 1500 = [List.replicate 6000 'a', ['a']] := by
  have hlen : (List.replicate 6001 'a').length = 6001 := List.length_replicate 6001 'a'
  simp only [chunk_text, hlen]
  rw [if_neg (by norm_num)]
  rw [show (1500 * 4 : Nat) = 6000 by norm_num]
  have fe1 : chunkGoF (List.replicate 6001 'a') 6000 6001 0 =
      chunkGoF (List.replicate 6001 'a') 6000 (6000 + 1) 0 := rfl
  rw [fe1, chunkGoF_succ_cons _ _ _ _ (by rw [hlen]; omega) (by rw [hlen]; omega)]
  rw [chunkStep_replicate_a]
  simp only [Nat.zero_add, Nat.sub_zero, List.drop_zero]
  have fe2 : chunkGoF (List.replicate 6001 'a') 6000 6000 6000 =
      chunkGoF (List.replicate 6001 'a') 6000 (5999 + 1) 6000 := rfl
  rw [fe2, chunkGoF_succ_final _ _ _ _ (by rw [hlen]; omega) (by rw [hlen]; omega)]
  have h1 : List.take 6000 (List.replicate 6001 'a') = List.replicate 6000 'a' := by
    have hm : (6000 : ℕ) ⊓ 6001 = 6000 := by omega
    rw [List.take_replicate, hm]
  have h2 : List.drop 6000 (List.replicate 6001 'a') = ['a'] := by
    rw [List.drop_replicate, show (6001 : Nat) - 6000 = 1 by omega, List.replicate_one]
  rw [h1, h2]

/-- C6 (amended): the splitter makes forward progress at every iteration
(every computed break point strictly exceeds the current position, so the
loop terminates for any finite input: its result is fuel-independent once
the fuel covers the remaining length); every emitted chunk is non-empty
whenever the input text is non-empty (the empty input yields the single
empty chunk `[""]`); and splitting 6001 `'a'` characters with the default
6000-character window yields exactly the hard-cut chunks of lengths 6000
and 1. -/
theorem chunk_splitter_progress_and_scenario :
    (∀ (text : List Char) (maxChars pos : Nat), 1 ≤ maxChars →
        pos < chunkStep text maxChars pos) ∧
    (∀ (text : List Char) (maxChars fuel fuel' pos : Nat), 1 ≤ maxChars →
        text.length - pos ≤ fuel → text.length - pos ≤ fuel' →
        chunkGoF text maxChars fuel pos = chunkGoF text maxChars fuel' pos) ∧
    (∀ (text : List Char) (size : Nat), 1 ≤ size → text ≠ [] →
        ∀ c ∈ chunk_text text size, c ≠ []) ∧
    (chunk_text (List.replicate 6001 'a') 1500 = [List.replicate 6000 'a', ['a']] ∧
     (List.replicate 6000 'a').length + (['a'] : List Char).length = 6001) := by
  refine ⟨?_, ?_, ?_, ?_, ?_⟩
  · intro text maxChars pos h
    exact chunkStep_gt text maxChars pos h
  · intro text maxChars fuel fuel' pos h hf hf'
    exact chunkGoF_stable text maxChars h fuel fuel' pos hf hf'
  · intro text size h hne c hc
    simp only [chunk_text] at hc
    split at hc
    · simp only [List.mem_singleton] at hc
      subst hc
      exact hne
    · exact chunkGoF_ne_nil text (size * 4) (by omega) text.length 0 c hc
  · exact chunk_text_replicate_6001
  · rw [List.length_replicate]
    rfl

/-- Witness for C6 (amended), instantiating the universally quantified
parts at concrete inputs. -/
theorem chunk_splitter_progress_and_scenario_witness :
    (1 ≤ 1 ∧ 0 < chunkStep ['a'] 1 0) ∧
    (1 ≤ 1500 ∧ (['a'] : List Char) ≠ [] ∧ ∀ c ∈ chunk_text ['a'] 1500, c ≠ []) :=
  ⟨⟨by norm_num, chunk_splitter_progress_and_scenario.1 ['a'] 1 0 (by norm_num)⟩,
    ⟨by norm_num, by simp,
      chunk_splitter_progress_and_scenario.2.2.1 ['a'] 1500 (by norm_num) (by simp)⟩⟩

/-! ## Structured-response repair layer
(`ReplicateProcessor.process_text`, replicate_processor.py lines 328-403) -/

/-- JSON values, as returned by `json.loads`. -/
inductive Json where
  | null
  | bool (b : Bool)
  | num (n : Int)
  | str (s : List Char)
  | arr (xs : List Json)
  | obj (kvs : List (String × Json))

/-- Python exception classes that can cross the repair layer. -/
inductive PyErrKind where
  | valueError
  | typeError
  | attributeError
  | timeoutError
  | replicateAPIError
  | other
deriving DecidableEq

/-- A raised Python exception: its class and its `str(e)` text. -/
structure PyErr where
  kind : PyErrKind
  msg : List Char

/-- The characters removed by `re.sub(r'[{}\[\]"`]', '', ...)` (lines 344
and 381): both braces, both brackets, double quote and backtick (written
via code points to keep them out of the source text). -/
def jsonPunct : List Char :=
  [Char.ofNat 123, Char.ofNat 125, '[', ']', Char.ofNat 34, Char.ofNat 96]

/-- `re.sub(r'[{}\[\]"`]', '', s)`: delete every occurrence of those
characters. -/
def removeJsonPunct (s : List Char) : List Char :=
  s.filter (fun c => !(jsonPunct.contains c))

/-- `re.sub(r'metadata:|formatted_text:|summary:|tags:|key_points:', '', s)`
(lines 345 and 382): remove the leftmost literal label and continue after
it; the five literals start with five distinct characters so at most one
alternative matches at any position. -/
def removeLabels (s : List Char) : List Char :=
  match s with
  | [] => []
  | c :: rest =>
    if ("metadata:".toList).isPrefixOf (c :: rest) then removeLabels (rest.drop 8)
    else if ("formatted_text:".toList).isPrefixOf (c :: rest) then removeLabels (rest.drop 14)
    else if ("summary:".toList).isPrefixOf (c :: rest) then removeLabels (rest.drop 7)
    else if ("tags:".toList).isPrefixOf (c :: rest) then removeLabels (rest.drop 4)
    else if ("key_points:".toList).isPrefixOf (c :: rest) then removeLabels (rest.drop 10)
    else c :: removeLabels rest
termination_by s.length
decreasing_by all_goals (simp only [List.length_drop, List.length_cons]; omega)

/-- One alternative of `(Here is|The following|This is|Your)` matching at
the head of `s`, with its length (the alternatives have pairwise distinct
three-character beginnings, so at most one matches). -/
def altAt (s : List Char) : Option Nat :=
  if ("Here is".toList).isPrefixOf s then some 7
  else if ("The following".toList).isPrefixOf s then some 13
  else if ("This is".toList).isPrefixOf s then some 7
  else if ("Your".toList).isPrefixOf s then some 4
  else none

/-- Position of the first ':' in `s` reachable without crossing a newline
(the `.` of the Python regex does not match a newline). -/
def findColon (s : List Char) : Option Nat :=
  match s with
  | [] => none
  | c :: rest =>
    if c = ':' then some 0
    else if c = '\n' then none
    else (findColon rest).map (fun n => n + 1)

/-- Length of the first match of `^.*?(Here is|The following|This is|Your).*?:`
(lines 346 and 383): the lazy engine scans for the smallest alternative
position reachable without a newline and then the nearest following ':'
reachable without a newline, backtracking to later alternative positions
when no ':' follows. -/
def boilerFind (s : List Char) : Option Nat :=
  match s with
  | [] => none
  | c :: rest =>
    if c = '\n' then none
    else
      match altAt (c :: rest) with
      | some k =>
        match findColon ((c :: rest).drop k) with
        | some j => some (k + j + 1)
        | none => (boilerFind rest).map (fun n => n + 1)
      | none => (boilerFind rest).map (fun n => n + 1)

/-- `re.sub(r'^.*?(Here is|The following|This is|Your).*?:', '', s)`:
remove the matched leading span, if any. -/
def removeBoilerplate (s : List Char) : List Char :=
  match boilerFind s with
  | some n => s.drop n
  | none => s

/-- Python's `str.strip()` whitespace class (ASCII part). -/
def isPySpace (c : Char) : Bool :=
  (c == ' ') || (c == '\t') || (c == '\n') || (c == '\r') ||
    (c == '\x0b') || (c == '\x0c')

/-- `str.strip()` (line 347/384). -/
def pyStrip (s : List Char) : List Char :=
  ((s.dropWhile isPySpace).reverse.dropWhile isPySpace).reverse

/-- The sentence terminators of the paragraph-break lookbehind `[.!?]`. -/
def isSentEnd (c : Char) : Bool :=
  (c == '.') || (c == '!') || (c == '?')

/-- The `[A-Z]` lookahead class. -/
def isUpperAZ (c : Char) : Bool :=
  ('A' ≤ c) && (c ≤ 'Z')

lemma dropWhile_length_le (p : Char → Bool) (l : List Char) :
    (l.dropWhile p).length ≤ l.length := by
  induction l with
  | nil => simp [List.dropWhile]
  | cons c rest ih =>
    by_cases h : p c
    · rw [List.dropWhile_cons_of_pos h]
      simpa using Nat.le_succ_of_le ih
    · rw [List.dropWhile_cons_of_neg (by simpa using h)]

/-- Scanner for `re.sub(r'(?<=[.!?])\s+(?=[A-Z])', '\n\n', s)` (lines 350
and 387): `prev` is the previous character of the original text; a maximal
whitespace run directly after a sentence terminator and directly before an
upper-case letter becomes two newlines. -/
def paraGo (prev : Char) (s : List Char) : List Char :=
  match s with
  | [] => []
  | c :: rest =>
    if h : isSentEnd prev && isPySpace c then
      match hafter : (c :: rest).dropWhile isPySpace with
      | [] => (c :: rest).takeWhile isPySpace
      | d :: tl =>
        if isUpperAZ d then
          '\n' :: '\n' :: paraGo (((c :: rest).takeWhile isPySpace).getLastD c) (d :: tl)
        else
          ((c :: rest).takeWhile isPySpace) ++
            paraGo (((c :: rest).takeWhile isPySpace).getLastD c) (d :: tl)
    else c :: paraGo c rest
termination_by s.length
decreasing_by
  all_goals first
    | (simp only [List.length_cons]; omega)
    | (have hc : isPySpace c = true := by
          simp only [Bool.and_eq_true] at h
          exact h.2
       rw [List.dropWhile_cons_of_pos hc] at hafter
       have hle := dropWhile_length_le isPySpace rest
       rw [hafter] at hle
       simp only [List.length_cons] at hle ⊢
       omega)

/-- The paragraph-break substitution itself: no match can start at
position 0 (the lookbehind needs a preceding character). -/
def paragraphBreaks (s : List Char) : List Char :=
  match s with
  | [] => []
  | c :: rest => c :: paraGo c rest

/-- The cleanup chain applied to a candidate `formatted_text`
(lines 344-350, identically lines 381-387): strip JSON punctuation, strip
field labels, strip leading boilerplate, strip outer whitespace, re-insert
paragraph breaks. -/
def cleanupText (s : List Char) : List Char :=
  paragraphBreaks (pyStrip (removeBoilerplate (removeLabels (removeJsonPunct s))))

/-- Python `dict.get(k, d)` on a parsed JSON object. -/
def pyDictGet (kvs : List (String × Json)) (k : String) (d : Json) : Json :=
  match kvs.lookup k with
  | some v => v
  | none => d

/-- One `if k not in metadata: metadata[k] = v` defaulting step
(lines 355-360 and 392-397). -/
def ensureKey (kvs : List (String × Json)) (k : String) (v : Json) :
    List (String × Json) :=
  match kvs.lookup k with
  | some _ => kvs
  | none => kvs ++ [(k, v)]

/-- Lines 352-360 (identically 389-397): replace a non-dict metadata by
`{}`, then default `summary` to `""`, `tags` to `[]`, `key_points` to `[]`. -/
def validateMetadata (m : Json) : List (String × Json) :=
  let kvs := match m with
    | Json.obj kvs => kvs
    | _ => []
  ensureKey (ensureKey (ensureKey kvs "summary" (Json.str [])) "tags" (Json.arr []))
    "key_points" (Json.arr [])

/-- The per-chunk record appended to `results` (lines 362-365 / 399-402). -/
structure ChunkResult where
  metadata : List (String × Json)
  formatted_text : List Char

/-- Oracle outcomes of the standard-library calls made while repairing one
streamed buffer: `parsed` is `json.loads(cleaned_response)` (line 337;
`none` models `JSONDecodeError`); `mdExtract` is the metadata recovered by
the regex fallback after its own parse attempt (lines 370-378; `none` when
the regex does not match or its payload fails to parse, both of which
leave `metadata = {}`); `txtExtract` is `text_match.group(1)` (line 371). -/
structure RepairEnv where
  parsed : Option Json
  mdExtract : Option Json
  txtExtract : Option (List Char)

/-- The repair layer of one attempt (lines 336-403), after the stream has
been accumulated into `full_response`.  The successful-parse branch uses
`.get` on the parsed value (an `AttributeError` for a non-dict value) and
`re.sub` on the extracted `formatted_text` (a `TypeError` for a non-string
value); both escape to the retry loop.  The `JSONDecodeError` branch never
raises.  In both branches the cleaned text falls back to the original
`chunk` when empty (`formatted_text or chunk`, lines 364 and 401), and the
metadata is defaulted by `validateMetadata`. -/
def repairChunk (env : RepairEnv) (full_response chunk : List Char) :
    Except PyErr ChunkResult :=
  match env.parsed with
  | some (Json.obj kvs) =>
    let metadata := pyDictGet kvs "metadata" (Json.obj [])
    match pyDictGet kvs "formatted_text" (Json.str []) with
    | Json.str ft0 =>
      let ft := cleanupText ft0
      .ok { metadata := validateMetadata metadata,
            formatted_text := if ft = [] then chunk else ft }
    | _ => .error { kind := PyErrKind.typeError,
                    msg := ("expected string or bytes-like object".toList) }
  | some _ => .error { kind := PyErrKind.attributeError,
                       msg := ("object has no attribute get".toList) }
  | none =>
    let metadata := match env.mdExtract with
      | some m => m
      | none => Json.obj []
    let ft0 := match env.txtExtract with
      | some t => t
      | none => full_response
    let ft := cleanupText ft0
    .ok { metadata := validateMetadata metadata,
          formatted_text := if ft = [] then chunk else ft }

lemma lookup_append_left {β : Type} (l₁ l₂ : List (String × β)) (k : String)
    (h : (l₁.lookup k).isSome) : ((l₁ ++ l₂).lookup k) = l₁.lookup k := by
  induction l₁ with
  | nil => simp [List.lookup] at h
  | cons p rest ih =>
    obtain ⟨a, b⟩ := p
    by_cases hk : (k == a) = true
    · simp only [List.cons_append, List.lookup, hk]
    · have hk' : (k == a) = false := by simpa using hk
      simp only [List.cons_append, List.lookup, hk'] at h ⊢
      exact ih h

lemma lookup_self_append (kvs : List (String × Json)) (k : String) (v : Json)
    (hv : kvs.lookup k = none) : ((kvs ++ [(k, v)]).lookup k) = some v := by
  induction kvs with
  | nil => simp [List.lookup]
  | cons p rest ih =>
    obtain ⟨a, b⟩ := p
    by_cases hk : (k == a) = true
    · simp [List.lookup, hk] at hv
    · have hk' : (k == a) = false := by simpa using hk
      simp only [List.cons_append, List.lookup, hk'] at hv ⊢
      exact ih hv

lemma lookup_ensureKey_self (kvs : List (String × Json)) (k : String) (v : Json) :
    ((ensureKey kvs k v).lookup k).isSome := by
  simp only [ensureKey]
  split
  · rename_i v' hv
    simp [hv]
  · rename_i hv
    rw [lookup_self_append _ _ _ hv]
    rfl

lemma lookup_ensureKey_mono (kvs : List (String × Json)) (k k' : String) (v : Json)
    (h : (kvs.lookup k').isSome) : ((ensureKey kvs k v).lookup k').isSome := by
  simp only [ensureKey]
  split
  · exact h
  · rw [lookup_append_left _ _ _ h]
    exact h

lemma validateMetadata_keys (m : Json) :
    (((validateMetadata m).lookup "summary").isSome ∧
     ((validateMetadata m).lookup "tags").isSome) ∧
    ((validateMetadata m).lookup "key_points").isSome := by
  refine ⟨⟨?_, ?_⟩, ?_⟩
  · exact lookup_ensureKey_mono _ _ _ _
      (lookup_ensureKey_mono _ _ _ _ (lookup_ensureKey_self _ _ _))
  · exact lookup_ensureKey_mono _ _ _ _ (lookup_ensureKey_self _ _ _)
  · exact lookup_ensureKey_self _ _ _

/-- C3 (amended): whenever the repair layer produces a per-chunk result,
that result's metadata contains all three of `summary`, `tags` and
`key_points` (defaulted when missing), and its `formatted_text` is
non-empty provided the chunk text itself is non-empty (the empty-cleanup
fallback substitutes the original chunk text); moreover on a buffer that
fails JSON parsing (unparsable at the first cascade stage) the fallback
branch always produces a result. -/
theorem repair_layer_total (env : RepairEnv) (full_response chunk : List Char) :
    (∀ r, repairChunk env full_response chunk = .ok r →
        (((r.metadata.lookup "summary").isSome ∧
          (r.metadata.lookup "tags").isSome) ∧
         (r.metadata.lookup "key_points").isSome) ∧
        (chunk ≠ [] → r.formatted_text ≠ [])) ∧
    (env.parsed = none → ∃ r, repairChunk env full_response chunk = .ok r) := by
  obtain ⟨parsed, mdE, txE⟩ := env
  constructor
  · intro r hr
    cases parsed with
    | none =>
      simp only [repairChunk] at hr
      cases hr
      refine ⟨validateMetadata_keys _, ?_⟩
      intro hchunk
      dsimp only
      split
      · exact hchunk
      · assumption
    | some v =>
      cases v with
      | obj kvs =>
        simp only [repairChunk] at hr
        split at hr
        · cases hr
          refine ⟨validateMetadata_keys _, ?_⟩
          intro hchunk
          dsimp only
          split
          · exact hchunk
          · assumption
        · cases hr
      | null => simp [repairChunk] at hr
      | bool b => simp [repairChunk] at hr
      | num n => simp [repairChunk] at hr
      | str s => simp [repairChunk] at hr
      | arr xs => simp [repairChunk] at hr
  · intro hp
    subst hp
    exact ⟨_, rfl⟩

/-- Witness for C3 (amended): an unparsable buffer (`json.loads` fails, no
regex match) over the non-empty chunk `"hi"`. -/
theorem repair_layer_total_witness :
    (∀ r, repairChunk ⟨none, none, none⟩ [] ['h', 'i'] = .ok r →
        (((r.metadata.lookup "summary").isSome ∧
          (r.metadata.lookup "tags").isSome) ∧
         (r.metadata.lookup "key_points").isSome) ∧
        ((['h', 'i'] : List Char) ≠ [] → r.formatted_text ≠ [])) ∧
    ((none : Option Json) = none →
      ∃ r, repairChunk ⟨none, none, none⟩ [] ['h', 'i'] = .ok r) :=
  repair_layer_total ⟨none, none, none⟩ [] ['h', 'i']

/-- C3 is false as stated for the empty chunk: on the empty input text the
splitter produces the single empty chunk, and feeding the repair layer an
unparsable empty buffer over that empty chunk yields a result whose
`formatted_text` is empty (`'' or chunk` is `''` when the chunk is `""`),
contradicting "its formatted_text is non-empty". -/
theorem repair_layer_empty_counterexample :
    repairChunk ⟨none, none, none⟩ [] [] =
      .ok { metadata := [("summary", Json.str []), ("tags", Json.arr []),
                         ("key_points", Json.arr [])],
            formatted_text := [] } := by
  have hclean : cleanupText [] = [] := by
    simp [cleanupText, removeJsonPunct, removeLabels, removeBoilerplate, pyStrip,
      paragraphBreaks, boilerFind]
  simp [repairChunk, hclean, validateMetadata, ensureKey, List.lookup]

/-! ## Retry loop (`process_text`, replicate_processor.py lines 299-410) -/

/-- The aggregate error of line 410:
`ReplicateAPIError(f"Failed to process text after {max_retries} retries: {last_error}")`. -/
def retryExhaustErr (max_retries : Nat) (last : PyErr) : PyErr :=
  { kind := PyErrKind.replicateAPIError,
    msg := ("Failed to process text after ".toList) ++ (toString max_retries).toList ++
      (" retries: ".toList) ++ last.msg }

/-- The `while retry_count < max_retries` loop of lines 303-410, fuelled
(`fuel = max_retries - retry_count` at every call, so the fuel never runs
out while the loop condition holds).  `attempt a` is the outcome of the
`try` body (stream + repair, lines 304-403) on the a-th attempt
(0-based).  Returns the loop outcome (`.ok none` = the `while` condition
was false before any result was appended, possible only when
`max_retries = 0`), the number of attempts made, and the back-off sleeps
taken at line 408 (`min(2 ** retry_count, 5)` after `retry_count += 1`). -/
def retryAux (attempt : Nat → Except PyErr ChunkResult) (max_retries : Nat) :
    Nat → Nat → Except PyErr (Option ChunkResult) × Nat × List Nat
  | 0, _ => (.ok none, 0, [])
  | fuel + 1, rc =>
    if rc < max_retries then
      match attempt rc with
      | .ok v => (.ok (some v), 1, [])
      | .error e =>
        if rc + 1 < max_retries then
          let r := retryAux attempt max_retries fuel (rc + 1)
          (r.1, r.2.1 + 1, min (2 ^ (rc + 1)) 5 :: r.2.2)
        else (.error (retryExhaustErr max_retries e), 1, [])
    else (.ok none, 0, [])

/-- The retry loop entered with `retry_count = 0` (line 300). -/
def retryLoop (attempt : Nat → Except PyErr ChunkResult) (max_retries : Nat) :
    Except PyErr (Option ChunkResult) × Nat × List Nat :=
  retryAux attempt max_retries max_retries 0

/-- The back-off sleeps taken starting from `retry_count = rc` over `f`
further failed attempts. -/
def sleepsFrom (rc : Nat) : Nat → List Nat
  | 0 => []
  | f + 1 => min (2 ^ (rc + 1)) 5 :: sleepsFrom (rc + 1) f

lemma sleepsFrom_eq_map (f : Nat) : ∀ rc, sleepsFrom rc f =
    (List.range f).map (fun i => min (2 ^ (rc + i + 1)) 5) := by
  induction f with
  | zero => intro rc; simp [sleepsFrom]
  | succ f ih =>
    intro rc
    rw [List.range_succ_eq_map]
    simp only [sleepsFrom, List.map_cons, List.map_map, ih (rc + 1)]
    refine congrArg₂ _ (by norm_num) ?_
    apply List.map_congr_left
    intro i _
    simp only [Function.comp]
    congr 2
    omega

lemma retryAux_all_fail (attempt : Nat → Except PyErr ChunkResult) (mr : Nat)
    (hfail : ∀ a, ∃ e, attempt a = .error e) :
    ∀ fuel rc, rc + fuel = mr → rc < mr →
      ∃ e, attempt (mr - 1) = .error e ∧
        retryAux attempt mr fuel rc =
          (.error (retryExhaustErr mr e), fuel, sleepsFrom rc (fuel - 1)) := by
  intro fuel
  induction fuel with
  | zero => intro rc h1 h2; omega
  | succ fuel ih =>
    intro rc h1 h2
    obtain ⟨e, he⟩ := hfail rc
    by_cases hlast : rc + 1 < mr
    · obtain ⟨e', he', hrec⟩ := ih (rc + 1) (by omega) hlast
      refine ⟨e', he', ?_⟩
      simp only [retryAux, if_pos h2, he, if_pos hlast, hrec]
      have hfuel : 1 ≤ fuel := by omega
      cases fuel with
      | zero => omega
      | succ f => simp [sleepsFrom]
    · have hmr : rc = mr - 1 := by omega
      have hfuel : fuel = 0 := by omega
      subst hfuel
      refine ⟨e, by rw [← hmr]; exact he, ?_⟩
      simp [retryAux, if_pos h2, he, if_neg hlast, sleepsFrom]

lemma retryAux_succeeds (attempt : Nat → Except PyErr ChunkResult) (mr f : Nat)
    (v : ChunkResult)
    (hbefore : ∀ a, a < f → ∃ e, attempt a = .error e)
    (hf : attempt f = .ok v) (hfm : f < mr) :
    ∀ fuel rc, rc + fuel = mr → rc ≤ f →
      retryAux attempt mr fuel rc =
        (.ok (some v), f - rc + 1, sleepsFrom rc (f - rc)) := by
  intro fuel
  induction fuel with
  | zero => intro rc h1 h2; omega
  | succ fuel ih =>
    intro rc h1 h2
    by_cases hrc : rc = f
    · subst hrc
      simp [retryAux, if_pos (by omega : rc < mr), hf, sleepsFrom]
    · have hlt : rc < f := by omega
      obtain ⟨e, he⟩ := hbefore rc hlt
      have hnext : rc + 1 < mr := by omega
      rw [show f - rc = (f - (rc + 1)) + 1 by omega]
      simp only [retryAux, if_pos (by omega : rc < mr), he, if_pos hnext,
        ih (rc + 1) (by omega) (by omega), sleepsFrom]

/-- C4: against a collaborator that raises on every attempt, the retry
loop of `process_text` invokes the attempt body exactly `max_retries`
times and then raises the single aggregate `ReplicateAPIError` built from
the retry count and the last underlying error, having slept
`min(2^attemptNumber, 5)` seconds between consecutive attempts
(`attemptNumber = 1 .. max_retries - 1`); against a collaborator that
fails `f < max_retries` times and then succeeds, the loop returns the
success result after exactly `f + 1` invocations. -/
theorem retry_backoff_behaviour (attempt : Nat → Except PyErr ChunkResult)
    (max_retries : Nat) (h : 1 ≤ max_retries) :
    ((∀ a, ∃ e, attempt a = .error e) →
      ∃ e, attempt (max_retries - 1) = .error e ∧
        retryLoop attempt max_retries =
          (.error (retryExhaustErr max_retries e), max_retries,
            (List.range (max_retries - 1)).map (fun i => min (2 ^ (i + 1)) 5))) ∧
    (∀ f v, f < max_retries → (∀ a, a < f → ∃ e, attempt a = .error e) →
      attempt f = .ok v →
      retryLoop attempt max_retries =
        (.ok (some v), f + 1,
          (List.range f).map (fun i => min (2 ^ (i + 1)) 5))) := by
  constructor
  · intro hfail
    obtain ⟨e, he, hr⟩ := retryAux_all_fail attempt max_retries hfail max_retries 0
      (by omega) (by omega)
    refine ⟨e, he, ?_⟩
    rw [retryLoop, hr, sleepsFrom_eq_map]
    norm_num
  · intro f v hfm hbefore hf
    have := retryAux_succeeds attempt max_retries f v hbefore hf hfm max_retries 0
      (by omega) (by omega)
    rw [retryLoop, this, sleepsFrom_eq_map]
    norm_num

/-- Witness for C4 at `max_retries = 2` with an always-failing attempt
oracle: two invocations, one back-off sleep of `min(2^1, 5) = 2` seconds,
and the aggregate error naming 2 retries and the last cause. -/
theorem retry_backoff_behaviour_witness :
    1 ≤ 2 ∧
    retryLoop (fun _ : Nat => .error ⟨PyErrKind.other, []⟩) 2 =
      (.error (retryExhaustErr 2 ⟨PyErrKind.other, []⟩), 2,
        (List.range 1).map (fun i => min (2 ^ (i + 1)) 5)) := by
  refine ⟨by norm_num, ?_⟩
  obtain ⟨e, he, hr⟩ :=
    (retry_backoff_behaviour (fun _ : Nat => .error ⟨PyErrKind.other, []⟩) 2
      (by norm_num)).1 (fun a => ⟨⟨PyErrKind.other, []⟩, rfl⟩)
  simp only [Except.error.injEq] at he
  subst he
  exact hr

/-! ## `process_text` (replicate_processor.py lines 264-424) -/

/-- The rate-limiter operations performed by one `process_text` call. -/
inductive LimiterOp where
  | acquire
  | release
deriving DecidableEq

/-- The final dictionary returned by `process_text` (lines 416-419). -/
structure FinalResult where
  metadata : List (String × Json)
  formatted_text : List Char

/-- The `ValueError` message of line 294:
`f"Template '{template_key}' not found"` (the quote character is written
via its code point). -/
def templateErrMsg (template_key : List Char) : List Char :=
  ("Template ".toList) ++ [Char.ofNat 39] ++ template_key ++ [Char.ofNat 39] ++
    (" not found".toList)

/-- The `for chunk in chunks` loop of lines 299-410: each chunk runs the
retry loop; a raised error aborts the whole call; a chunk whose loop exits
without appending (possible only when `max_retries = 0`) contributes
nothing.  `stream i a` is the outcome of `replicate.stream` plus the
accumulation of lines 306-327 for chunk `i`, attempt `a`: either a raised
transport/timeout error, or the accumulated buffer together with the
parse-oracle outcomes consumed by the repair layer. -/
def processChunks (stream : Nat → Nat → Except PyErr (List Char × RepairEnv))
    (max_retries : Nat) : Nat → List (List Char) → Except PyErr (List ChunkResult)
  | _, [] => .ok []
  | i, chunk :: rest =>
    let attempt := fun a =>
      match stream i a with
      | .ok (buf, env) => repairChunk env buf chunk
      | .error e => .error e
    match (retryLoop attempt max_retries).1 with
    | .error e => .error e
    | .ok none => processChunks stream max_retries (i + 1) rest
    | .ok (some r) =>
      match processChunks stream max_retries (i + 1) rest with
      | .error e => .error e
      | .ok rs => .ok (r :: rs)

/-- Inputs of one `process_text` call, with the external collaborators as
oracles: `acquireOk` is the result of the entry `rate_limiter.acquire`
(line 287), `templateFound` whether `TEMPLATES.get(template_key)` is
truthy (lines 292-293), `stream` the per-chunk per-attempt collaborator
outcome. -/
structure PTInput where
  acquireOk : Bool
  template_key : List Char
  templateFound : Bool
  text : List Char
  stream : Nat → Nat → Except PyErr (List Char × RepairEnv)
  max_retries : Nat

/-- `ReplicateProcessor.process_text` (lines 264-424): the rate gate of
lines 287-288 (raised BEFORE the `try`, hence not wrapped and with no
`release`), the template lookup of lines 292-294, chunking with the
default size 1500 (line 296), the per-chunk retry loops, the merge of
lines 412-419, the catch-all wrap of lines 421-422
(`ReplicateAPIError(f"Error processing text: {str(e)}")`) and the
`finally` release of line 424.  Returns the outcome together with the
trace of rate-limiter calls made by this `process_text` body. -/
def process_text (inp : PTInput) : Except PyErr FinalResult × List LimiterOp :=
  if !inp.acquireOk then
    (.error { kind := PyErrKind.replicateAPIError,
              msg := ("Rate limit exceeded. Please try again later.".toList) },
      [LimiterOp.acquire])
  else
    let body : Except PyErr FinalResult :=
      if !inp.templateFound then
        .error { kind := PyErrKind.valueError, msg := templateErrMsg inp.template_key }
      else
        match processChunks inp.stream inp.max_retries 0 (chunk_text inp.text 1500) with
        | .error e => .error e
        | .ok [] =>
          .error { kind := PyErrKind.replicateAPIError,
                   msg := ("No valid results obtained from processing".toList) }
        | .ok (r0 :: rest) =>
          .ok { metadata := r0.metadata,
                formatted_text :=
                  List.intercalate [' '] ((r0 :: rest).map ChunkResult.formatted_text) }
    match body with
    | .ok r => (.ok r, [LimiterOp.acquire, LimiterOp.release])
    | .error e =>
      (.error { kind := PyErrKind.replicateAPIError,
                msg := ("Error processing text: ".toList) ++ e.msg },
        [LimiterOp.acquire, LimiterOp.release])

lemma retryAux_none_ge (attempt : Nat → Except PyErr ChunkResult) (mr : Nat) :
    ∀ fuel rc, rc + fuel = mr → (retryAux attempt mr fuel rc).1 = .ok none →
      ¬ rc < mr := by
  intro fuel
  induction fuel with
  | zero => intro rc h1 _; omega
  | succ fuel ih =>
    intro rc h1 hnone
    by_cases hrc : rc < mr
    · exfalso
      simp only [retryAux, if_pos hrc] at hnone
      cases hat : attempt rc with
      | ok v => simp only [hat] at hnone; simp at hnone
      | error e =>
        simp only [hat] at hnone
        by_cases hnext : rc + 1 < mr
        · rw [if_pos hnext] at hnone
          dsimp only at hnone
          exact absurd (ih (rc + 1) (by omega) hnone) (by omega)
        · rw [if_neg hnext] at hnone
          simp at hnone
    · exact hrc

lemma retryLoop_none_mr (attempt : Nat → Except PyErr ChunkResult) (mr : Nat)
    (h : (retryLoop attempt mr).1 = .ok none) : mr = 0 := by
  have := retryAux_none_ge attempt mr mr 0 (by omega) h
  omega

lemma retryLoop_some_pos (attempt : Nat → Except PyErr ChunkResult) (mr : Nat)
    (r : ChunkResult) (h : (retryLoop attempt mr).1 = .ok (some r)) : 1 ≤ mr := by
  by_contra hc
  have hmr : mr = 0 := by omega
  subst hmr
  simp [retryLoop, retryAux] at h

lemma retryLoop_first_ok (attempt : Nat → Except PyErr ChunkResult) (mr : Nat)
    (v : ChunkResult) (h : 1 ≤ mr) (hv : attempt 0 = .ok v) :
    retryLoop attempt mr = (.ok (some v), 1, []) := by
  cases mr with
  | zero => omega
  | succ m =>
    simp [retryLoop, retryAux, hv]

lemma processChunks_zero (stream : Nat → Nat → Except PyErr (List Char × RepairEnv)) :
    ∀ chunks i, processChunks stream 0 i chunks = .ok [] := by
  intro chunks
  induction chunks with
  | nil => intro i; rfl
  | cons c rest ih =>
    intro i
    simp only [processChunks, retryLoop, retryAux]
    exact ih (i + 1)

lemma processChunks_pos_nil (stream : Nat → Nat → Except PyErr (List Char × RepairEnv))
    (mr : Nat) (h : 1 ≤ mr) :
    ∀ chunks i, processChunks stream mr i chunks = .ok [] → chunks = [] := by
  intro chunks
  induction chunks with
  | nil => intro i _; rfl
  | cons c rest ih =>
    intro i hok
    exfalso
    simp only [processChunks] at hok
    split at hok
    · simp at hok
    · rename_i hnone
      have := retryLoop_none_mr _ _ hnone
      omega
    · split at hok
      · simp at hok
      · simp at hok

/-- C9: for every `process_text` call whose entry `acquire` succeeds, the
rate-limiter trace is exactly one `acquire` at entry followed by exactly
one `release` at exit — on the success path and on every failure path
alike, never per attempt or per chunk. -/
theorem process_text_single_release (inp : PTInput) (h : inp.acquireOk = true) :
    (process_text inp).2 = [LimiterOp.acquire, LimiterOp.release] := by
  simp only [process_text, h, Bool.not_true, Bool.false_eq_true, if_false]
  split <;> rfl

/-- Witness for C9 on a failing call (unknown template). -/
theorem process_text_single_release_witness :
    ({ acquireOk := true, template_key := ['x'], templateFound := false,
       text := [], stream := (fun _ _ => .error ⟨PyErrKind.other, []⟩),
       max_retries := 3 } : PTInput).acquireOk = true ∧
    (process_text
        { acquireOk := true, template_key := ['x'], templateFound := false,
          text := [], stream := (fun _ _ => .error ⟨PyErrKind.other, []⟩),
          max_retries := 3 }).2 = [LimiterOp.acquire, LimiterOp.release] :=
  ⟨rfl, process_text_single_release _ rfl⟩

/-- C10: after the rate gate, every outcome of `process_text` is either a
success or a `ReplicateAPIError` whose message is
`"Error processing text: "` followed by the original error text (the
catch-all of lines 421-422); in particular the `ValueError` for an unknown
template key reaches the caller wrapped, so no bare `ValueError` or
`TimeoutError` escapes. -/
theorem process_text_wraps_errors (inp : PTInput) (h : inp.acquireOk = true) :
    ((∃ r, (process_text inp).1 = .ok r) ∨
     (∃ m, (process_text inp).1 =
        .error { kind := PyErrKind.replicateAPIError,
                 msg := ("Error processing text: ".toList) ++ m })) ∧
    (inp.templateFound = false →
      (process_text inp).1 =
        .error { kind := PyErrKind.replicateAPIError,
                 msg := ("Error processing text: ".toList) ++
                   templateErrMsg inp.template_key }) := by
  constructor
  · simp only [process_text, h, Bool.not_true, Bool.false_eq_true, if_false]
    split
    · rename_i r _
      exact Or.inl ⟨r, rfl⟩
    · rename_i e _
      exact Or.inr ⟨e.msg, rfl⟩
  · intro htpl
    simp only [process_text, h, htpl, Bool.not_true, Bool.not_false,
      Bool.false_eq_true, if_false, if_true]

/-- Witness for C10 on a call with an unknown template key. -/
theorem process_text_wraps_errors_witness :
    ({ acquireOk := true, template_key := ['x'], templateFound := false,
       text := [], stream := (fun _ _ => .error ⟨PyErrKind.other, []⟩),
       max_retries := 3 } : PTInput).acquireOk = true ∧
    (process_text
        { acquireOk := true, template_key := ['x'], templateFound := false,
          text := [], stream := (fun _ _ => .error ⟨PyErrKind.other, []⟩),
          max_retries := 3 }).1 =
      .error { kind := PyErrKind.replicateAPIError,
               msg := ("Error processing text: ".toList) ++ templateErrMsg ['x'] } :=
  ⟨rfl, (process_text_wraps_errors _ rfl).2 rfl⟩

/-- The metadata record the repair defaulting synthesizes from an empty
candidate: all three fields present with their defaults. -/
def defaultedMetadata : List (String × Json) :=
  [("summary", Json.str []), ("tags", Json.arr []), ("key_points", Json.arr [])]

lemma repairChunk_empty_buffer (c : List Char) :
    repairChunk ⟨none, none, none⟩ [] c =
      .ok { metadata := defaultedMetadata, formatted_text := c } := by
  have hclean : cleanupText [] = [] := by
    simp [cleanupText, removeJsonPunct, removeLabels, removeBoilerplate, pyStrip,
      paragraphBreaks, boilerFind]
  simp [repairChunk, hclean, validateMetadata, ensureKey, List.lookup,
    defaultedMetadata]

lemma processChunks_cons_first_ok
    (stream : Nat → Nat → Except PyErr (List Char × RepairEnv)) (mr i : Nat)
    (c : List Char) (rest : List (List Char)) (r : ChunkResult) (h : 1 ≤ mr)
    (hfirst : (fun a => match stream i a with
        | .ok (buf, env) => repairChunk env buf c
        | .error e => .error e) 0 = .ok r) :
    processChunks stream mr i (c :: rest) =
      match processChunks stream mr (i + 1) rest with
      | .error e => .error e
      | .ok rs => .ok (r :: rs) := by
  simp only [processChunks]
  rw [retryLoop_first_ok (fun a => match stream i a with
      | .ok (buf, env) => repairChunk env buf c
      | .error e => .error e) mr r h hfirst]

lemma processChunks_const_stream :
    ∀ (chunks : List (List Char)) (i : Nat),
      processChunks (fun _ _ => .ok ([], ⟨none, none, none⟩)) 3 i chunks =
        .ok (chunks.map (fun c =>
          ({ metadata := defaultedMetadata, formatted_text := c } : ChunkResult))) := by
  intro chunks
  induction chunks with
  | nil => intro i; rfl
  | cons c rest ih =>
    intro i
    rw [processChunks_cons_first_ok _ 3 i c rest _ (by omega)
        (repairChunk_empty_buffer c), ih (i + 1)]
    rfl

lemma processChunks_cons_eq
    (stream : Nat → Nat → Except PyErr (List Char × RepairEnv)) (mr i : Nat)
    (c : List Char) (rest : List (List Char)) :
    processChunks stream mr i (c :: rest) =
      (match (retryLoop (fun a => match stream i a with
          | .ok (buf, env) => repairChunk env buf c
          | .error e => .error e) mr).1 with
       | .error e => .error e
       | .ok none => processChunks stream mr (i + 1) rest
       | .ok (some r) =>
         match processChunks stream mr (i + 1) rest with
         | .error e => .error e
         | .ok rs => .ok (r :: rs)) := rfl

/-- C7: on a multi-chunk input whose chunk phase succeeds, `process_text`
returns `formatted_text` equal to the space-joined concatenation of the
per-chunk recovered texts in original chunk order, and metadata equal to
the FIRST chunk result's metadata only; the later results (which exist:
`rest ≠ []`) contribute no metadata (lines 412-419). -/
theorem multi_chunk_merge (inp : PTInput) (r0 : ChunkResult) (rest : List ChunkResult)
    (hacq : inp.acquireOk = true) (htpl : inp.templateFound = true)
    (hmulti : 2 ≤ (chunk_text inp.text 1500).length)
    (hok : processChunks inp.stream inp.max_retries 0 (chunk_text inp.text 1500) =
      .ok (r0 :: rest)) :
    (process_text inp).1 =
      .ok { metadata := r0.metadata,
            formatted_text :=
              List.intercalate [' '] ((r0 :: rest).map ChunkResult.formatted_text) } ∧
    rest ≠ [] := by
  constructor
  · simp only [process_text, hacq, htpl, Bool.not_true, Bool.false_eq_true, if_false,
      hok]
  · intro hrest
    subst hrest
    cases hch : chunk_text inp.text 1500 with
    | nil => rw [hch] at hmulti; simp at hmulti
    | cons c1 rest1 =>
      cases rest1 with
      | nil => rw [hch] at hmulti; simp at hmulti
      | cons c2 cs =>
        rw [hch] at hok
        rw [processChunks_cons_eq] at hok
        split at hok
        · simp at hok
        · rename_i hnone
          have hmr := retryLoop_none_mr _ _ hnone
          rw [hmr] at hok
          rw [processChunks_zero] at hok
          simp at hok
        · rename_i r hsome
          split at hok
          · simp at hok
          · rename_i rs hrs
            simp only [Except.ok.injEq, List.cons.injEq] at hok
            have hmr := retryLoop_some_pos _ _ _ hsome
            have hnil : c2 :: cs = [] :=
              processChunks_pos_nil inp.stream inp.max_retries hmr (c2 :: cs) 1
                (by rw [hrs, hok.2])
            simp at hnil

/-- Witness for C7: a 6001-character input split into two chunks, with a
collaborator whose buffers are unparsable so every chunk falls back to its
own text. -/
theorem multi_chunk_merge_witness :
    2 ≤ (chunk_text (List.replicate 6001 'a') 1500).length ∧
    ((process_text
        { acquireOk := true, template_key := [], templateFound := true,
          text := List.replicate 6001 'a',
          stream := (fun _ _ => .ok ([], ⟨none, none, none⟩)),
          max_retries := 3 }).1 =
      .ok { metadata := defaultedMetadata,
            formatted_text := List.intercalate [' ']
              (([⟨defaultedMetadata, List.replicate 6000 'a'⟩,
                 ⟨defaultedMetadata, ['a']⟩] :
                List ChunkResult).map ChunkResult.formatted_text) } ∧
      ([⟨defaultedMetadata, ['a']⟩] : List ChunkResult) ≠ []) := by
  have h2 : 2 ≤ (chunk_text (List.replicate 6001 'a') 1500).length := by
    rw [chunk_text_replicate_6001]
    norm_num
  refine ⟨h2, ?_⟩
  have hok : processChunks (fun _ _ => .ok ([], ⟨none, none, none⟩)) 3 0
      (chunk_text (List.replicate 6001 'a') 1500) =
      .ok [⟨defaultedMetadata, List.replicate 6000 'a'⟩, ⟨defaultedMetadata, ['a']⟩] := by
    rw [chunk_text_replicate_6001, processChunks_const_stream]
    simp only [List.map_cons, List.map_nil]
  have := multi_chunk_merge
      { acquireOk := true, template_key := [], templateFound := true,
        text := List.replicate 6001 'a',
        stream := (fun _ _ => .ok ([], ⟨none, none, none⟩)),
        max_retries := 3 }
      ⟨defaultedMetadata, List.replicate 6000 'a'⟩ [⟨defaultedMetadata, ['a']⟩]
      rfl rfl h2 hok
  exact this
